import Mathlib

/-!
Verification development for the firestore-rs client engine.

The Rust source is shallowly embedded below:
* machine integers become `Nat`/`Int` with explicit two's-complement casts;
* `f64` payloads are carried as opaque bit patterns (`Nat`); no conversion in
  the embedded code performs floating-point arithmetic, it only moves the
  payload, so equality of payload stands for bit-identity of doubles;
* `std::time::SystemTime` is carried as its duration since the Unix epoch,
  a `(secs, nanos)` pair, which is also how the external prost `Timestamp`
  codec represents it (the external `SystemTime ↔ prost Timestamp`
  conversions are inverse on this pair and are modelled as the identity);
* fallible Rust code returns `Except`/`Option`; a Rust `panic!`,
  `unimplemented!` or failed `assert!` becomes `none`;
* network collaborators (the tonic RPC stubs) are passed in as explicit
  response arguments or response functions, and the calls a client method
  issues are returned as an explicit trace.
-/

namespace FirestoreRs

/-- Bit pattern of a Rust `f64`; the embedded code never computes with doubles,
it only carries them, so the payload is opaque. -/
abbrev F64 := Nat

/-- Rust `std::time::SystemTime`, represented by its duration since `UNIX_EPOCH`
(seconds and subsecond nanoseconds; every value the embedded code builds has
`nanos < 10^9`). -/
structure RustSystemTime where
  secs : Nat
  nanos : Nat
  deriving DecidableEq, Repr

/-- The `tonic::Code` enum: the gRPC status codes. -/
inductive GrpcCode where
  | ok | cancelled | unknown | invalidArgument | deadlineExceeded | notFound
  | alreadyExists | permissionDenied | resourceExhausted | failedPrecondition
  | aborted | outOfRange | unimplemented | internal | unavailable | dataLoss
  | unauthenticated
  deriving DecidableEq, Repr

/-- A `tonic::Status`: a non-OK RPC status carries a code and a message. -/
structure GrpcStatus where
  code : GrpcCode
  message : String
  deriving DecidableEq, Repr

/-- The `anyhow::Error` type as the client uses it: either a formatted message
(`anyhow!(...)`) or a wrapped RPC status (`GrpcErrorStatus` / a raw
`tonic::Status` moved through `?`). -/
inductive AnyhowError where
  | message (s : String)
  | grpc (st : GrpcStatus)
  deriving DecidableEq, Repr

/-! ## Wire value model

`google_cloud_grpc_proto::firestore::v1::Value` is a struct holding an
`Option<ValueType>`; the two are flattened into one inductive, with `none`
standing for `Value { value_type: None }`. -/

inductive GValue where
  | none
  | nullValue (n : Int)
  | booleanValue (b : Bool)
  | integerValue (i : Int)
  | doubleValue (d : F64)
  | timestampValue (t : RustSystemTime)
  | stringValue (s : String)
  | bytesValue (bs : List Nat)
  | referenceValue (r : String)
  | geoPointValue (lat lng : F64)
  | arrayValue (values : List GValue)
  | mapValue (fields : List (String × GValue))

/-! ## The typed value model `FValue`

`src/firestore/src/firestore/value/fvalue/mod.rs`. The Rust `Map` variant is a
`HashMap<String, FValue>`; it is embedded as its entry list (keys unique,
order irrelevant; every conversion below maps over the entries pointwise,
so the list order is carried through unchanged). -/

inductive FValue where
  | nullValue
  | str (v : String)
  | int (v : Int)
  | double (v : F64)
  | bool (v : Bool)
  | bytes (v : List Nat)
  | timestamp (v : RustSystemTime)
  | array (v : List FValue)
  | map (v : List (String × FValue))

/-- Accessor `FValue::as_int` (generated by the `fvalue_as!` macro). -/
def FValue.as_int : FValue → Option Int
  | .int v => some v
  | _ => Option.none

/-- Accessor `FValue::as_string` (generated by the `fvalue_as!` macro). -/
def FValue.as_string : FValue → Option String
  | .str v => some v
  | _ => Option.none

/-- The variant name of an `FValue`, standing in for the `{:?}` Debug prefix
the source puts in front of serde error messages. -/
def FValue.variantName : FValue → String
  | .nullValue => "NullValue"
  | .str _ => "Str"
  | .int _ => "Int"
  | .double _ => "Double"
  | .bool _ => "Bool"
  | .bytes _ => "Bytes"
  | .timestamp _ => "Timestamp"
  | .array _ => "Array"
  | .map _ => "Map"

mutual

/-- Conversion `FValue::to_grpc_value_with_depth`. The failed
`assert!(depth <= 20, ...)` is `none`. -/
def to_grpc_value_with_depth : FValue → Int → Option GValue
  | v, depth =>
    if depth ≤ 20 then
      match v with
      | .nullValue => some (.nullValue 0)
      | .str s => some (.stringValue s)
      | .int i => some (.integerValue i)
      | .double d => some (.doubleValue d)
      | .bool b => some (.booleanValue b)
      | .bytes bs => some (.bytesValue bs)
      | .timestamp t => some (.timestampValue t)
      | .array vs => Option.map GValue.arrayValue (to_grpc_values vs (depth + 1))
      | .map kvs => Option.map GValue.mapValue (to_grpc_map_entries kvs (depth + 1))
    else Option.none

/-- The `vs.into_iter().map(|e| e.to_grpc_value_with_depth(depth + 1))`
collection inside the `Array` arm; a child abort aborts the whole
conversion. -/
def to_grpc_values : List FValue → Int → Option (List GValue)
  | [], _ => some []
  | v :: vs, depth =>
    match to_grpc_value_with_depth v depth with
    | Option.none => Option.none
    | some w =>
      match to_grpc_values vs depth with
      | Option.none => Option.none
      | some ws => some (w :: ws)

/-- The `(k, v.to_grpc_value_with_depth(depth + 1))` collection inside the
`Map` arm. -/
def to_grpc_map_entries : List (String × FValue) → Int → Option (List (String × GValue))
  | [], _ => some []
  | (k, v) :: kvs, depth =>
    match to_grpc_value_with_depth v depth with
    | Option.none => Option.none
    | some w =>
      match to_grpc_map_entries kvs depth with
      | Option.none => Option.none
      | some ws => some ((k, w) :: ws)

end

/-- Conversion `FValue::to_grpc_value`. -/
def to_grpc_value (v : FValue) : Option GValue :=
  to_grpc_value_with_depth v 0

mutual

/-- Conversion `FValue::from_grpc_value_with_depth`. The `unimplemented!` arms for
reference and geo-point wire values and the `panic!("null value type ")`
arm for a missing `value_type` are `none`; the `depth` counter is threaded
exactly as in the source. -/
def from_grpc_value_with_depth : GValue → Int → Option FValue
  | w, depth =>
    match w with
    | .nullValue _ => some .nullValue
    | .booleanValue b => some (.bool b)
    | .integerValue i => some (.int i)
    | .doubleValue d => some (.double d)
    | .timestampValue t => some (.timestamp t)
    | .stringValue s => some (.str s)
    | .bytesValue bs => some (.bytes bs)
    | .arrayValue ws => Option.map FValue.array (from_grpc_values ws (depth + 1))
    | .mapValue kws => Option.map FValue.map (from_grpc_map_entries kws (depth + 1))
    | .referenceValue _ => Option.none
    | .geoPointValue _ _ => Option.none
    | .none => Option.none

/-- The child collection inside the `ArrayValue` arm. -/
def from_grpc_values : List GValue → Int → Option (List FValue)
  | [], _ => some []
  | w :: ws, depth =>
    match from_grpc_value_with_depth w depth with
    | Option.none => Option.none
    | some v =>
      match from_grpc_values ws depth with
      | Option.none => Option.none
      | some vs => some (v :: vs)

/-- The entry collection inside the `MapValue` arm. -/
def from_grpc_map_entries : List (String × GValue) → Int → Option (List (String × FValue))
  | [], _ => some []
  | (k, w) :: kws, depth =>
    match from_grpc_value_with_depth w depth with
    | Option.none => Option.none
    | some v =>
      match from_grpc_map_entries kws depth with
      | Option.none => Option.none
      | some vs => some ((k, v) :: vs)

end

/-- Conversion `FValue::from_grpc_value`. -/
def from_grpc_value (w : GValue) : Option FValue :=
  from_grpc_value_with_depth w 0

mutual

/-- Nesting depth of an `FValue`: the number of containers on the deepest
path (a scalar, an empty array and an empty map all have depth 0, an array
holding a scalar has depth 1, and so on). This is exactly the largest value
the `depth` counter of `to_grpc_value_with_depth` reaches below the node. -/
def nestingDepth : FValue → Nat
  | .array vs => nestingDepthList vs
  | .map kvs => nestingDepthEntries kvs
  | _ => 0

def nestingDepthList : List FValue → Nat
  | [] => 0
  | v :: vs => max (nestingDepth v + 1) (nestingDepthList vs)

def nestingDepthEntries : List (String × FValue) → Nat
  | [] => 0
  | (_, v) :: kvs => max (nestingDepth v + 1) (nestingDepthEntries kvs)

end

mutual

/-- A wire value whose leaves all belong to the kinds
`from_grpc_value_with_depth` supports (no reference, no geo-point, no
missing `value_type`). -/
def supportedWire : GValue → Bool
  | .none => false
  | .referenceValue _ => false
  | .geoPointValue _ _ => false
  | .arrayValue ws => supportedWireList ws
  | .mapValue kws => supportedWireEntries kws
  | _ => true

def supportedWireList : List GValue → Bool
  | [] => true
  | w :: ws => supportedWire w && supportedWireList ws

def supportedWireEntries : List (String × GValue) → Bool
  | [] => true
  | (_, w) :: kws => supportedWire w && supportedWireEntries kws

end

/-- The canonical array-of-array chain: `n` nested `Array` containers around
a null leaf. -/
def nestedArray : Nat → FValue
  | 0 => .nullValue
  | n + 1 => .array [nestedArray n]

/-- The canonical map-of-map chain: `n` nested single-entry `Map` containers
around a null leaf. -/
def nestedMap : Nat → FValue
  | 0 => .nullValue
  | n + 1 => .map [("k", nestedMap n)]

/-- The canonical deeply nested wire value: `n` nested `ArrayValue`
containers around a null wire leaf. -/
def nestedWire : Nat → GValue
  | 0 => .nullValue 0
  | n + 1 => .arrayValue [nestedWire n]

/-! ## Client-side limits (`src/firestore/src/firestore/client.rs`) -/

/-- Constant `MAX_BATCH_WRTIE_SIZE` (sic): the batch-write size limit. -/
def MAX_BATCH_WRTIE_SIZE : Nat := 450

/-- Constant `MAX_WRITE_OPE_IN_TX`: the declared in-transaction operation-count limit
(exported from the crate but, notably, not the constant `in_transaction`
compares against). -/
def MAX_WRITE_OPE_IN_TX : Nat := 500

/-- Constant `MAX_BATCH_GET_DOC_NUM`: batch-get chunk size. -/
def MAX_BATCH_GET_DOC_NUM : Nat := 1000

/-! ## Write operations (`src/firestore/src/firestore/request.rs`) -/

/-- Enum `request::WriteOperation`: the private payload of a write operation;
field sets are `HashMap<String, Value>` entry lists. -/
inductive WriteOperationKind where
  | create (fields : List (String × GValue))
  | update (fields : List (String × GValue))
  | delete

/-- Struct `request::DocumentWriteOperation`. -/
structure DocumentWriteOperation where
  document_path : String
  operation : WriteOperationKind
  update_field_mask : Option (List String)

/-- Proto `google_cloud_grpc_proto::firestore::v1::WriteResult`. -/
structure WriteResult where
  update_time : Option RustSystemTime
  transform_results : List GValue

/-- Proto `google_cloud_grpc_proto::firestore::v1::Document` (the response shape the
client handles: a wire path plus a field set). -/
structure GDocument where
  name : String
  fields : List (String × GValue)

/-! ## Single-document get (`FirestoreClient::get_document`)

The RPC collaborator's answer is passed in as `resp`. -/

/-- Method `FirestoreClient::get_document`: an `Ok` response is a present document,
a `NotFound` status is a successful absent result, any other status is
surfaced as an error (`GrpcErrorStatus::from(status)` wrapped into
`anyhow::Error`). -/
def get_document (resp : Except GrpcStatus GDocument) :
    Except AnyhowError (Option GDocument) :=
  match resp with
  | .ok found => .ok (some found)
  | .error status =>
    if status.code = GrpcCode.notFound then .ok Option.none
    else .error (.grpc status)

/-! ## Batch writes (`FirestoreClient::batch_write`, `large_batch_write`)

The collaborator is a function `respond` from the operation list of one
batch-write RPC to its result; each model returns the client result
together with the trace of batch-write RPC calls actually issued, in
order. -/

/-- Rust `slice::chunks(n)` on the operation list: successive chunks of `n`
elements, the last possibly shorter, none empty. The `fuel` argument (first
component) is an upper bound on the number of chunks and is seeded with the
list length; Rust panics when `n = 0`, and every call site here passes
`MAX_BATCH_WRTIE_SIZE` or `MAX_BATCH_GET_DOC_NUM`. -/
def chunks_go (fuel : Nat) (n : Nat) (l : List α) : List (List α) :=
  match fuel, l with
  | _, [] => []
  | 0, l => [l]
  | fuel + 1, x :: xs => (x :: xs).take n :: chunks_go fuel n ((x :: xs).drop n)

/-- Rust `operations.chunks(n)` with enough fuel for the whole list. -/
def chunksOf (n : Nat) (l : List α) : List (List α) :=
  chunks_go l.length n l

/-- Method `FirestoreClient::batch_write`: reject lists over
`MAX_BATCH_WRTIE_SIZE` with a validation error before any network call;
otherwise issue exactly one batch-write RPC and surface its outcome. -/
def batch_write (respond : List DocumentWriteOperation → Except GrpcStatus (List WriteResult))
    (operations : List DocumentWriteOperation) :
    Except AnyhowError (List WriteResult) × List (List DocumentWriteOperation) :=
  if operations.length > MAX_BATCH_WRTIE_SIZE then
    (.error (.message ("max batch write size = " ++ toString MAX_BATCH_WRTIE_SIZE
        ++ " but passed " ++ toString operations.length)), [])
  else
    match respond operations with
    | .ok rs => (.ok rs, [operations])
    | .error st => (.error (.grpc st), [operations])

/-- The chunk loop body of `large_batch_write`: run `batch_write` on each
chunk in order, appending results; a failing chunk stops the loop (`?`), and
later chunks are not issued. -/
def large_batch_write_go
    (respond : List DocumentWriteOperation → Except GrpcStatus (List WriteResult)) :
    List (List DocumentWriteOperation) →
    Except AnyhowError (List WriteResult) × List (List DocumentWriteOperation)
  | [] => (.ok [], [])
  | chunk :: rest =>
    match batch_write respond chunk with
    | (.error e, calls) => (.error e, calls)
    | (.ok rs, calls) =>
      match large_batch_write_go respond rest with
      | (.error e, calls2) => (.error e, calls ++ calls2)
      | (.ok rs2, calls2) => (.ok (rs ++ rs2), calls ++ calls2)

/-- Method `FirestoreClient::large_batch_write`: split into chunks of at most
`MAX_BATCH_WRTIE_SIZE` and issue sequential `batch_write` calls. -/
def large_batch_write
    (respond : List DocumentWriteOperation → Except GrpcStatus (List WriteResult))
    (operations : List DocumentWriteOperation) :
    Except AnyhowError (List WriteResult) × List (List DocumentWriteOperation) :=
  large_batch_write_go respond (chunksOf MAX_BATCH_WRTIE_SIZE operations)

/-! ## The transactional write engine (`FirestoreClient::in_transaction`)

The caller-supplied unit of work mutates the `TransactionOperation` handle
(pushing write operations) and then either returns `Ok`, returns `Err`, or
panics; `catch_unwind` turns the panic into the outer `Err` arm. The work is
summarised by a `WorkOutcome` carrying the operations it accumulated in the
handle plus how it finished. The begin / commit / rollback collaborators are
passed in as their responses; the trace records the commit and rollback RPC
calls actually issued, in order. -/

/-- How the caller-supplied unit of work ends, together with the write
operations it left in the transaction handle. -/
inductive WorkOutcome (R : Type) where
  | success (ops : List DocumentWriteOperation) (value : R)
  | failure (ops : List DocumentWriteOperation) (err : AnyhowError)
  | panic (ops : List DocumentWriteOperation) (msg : String)

/-- The commit and rollback RPC calls `in_transaction` issued: each commit
call records its operation list and transaction token, each rollback call
its transaction token. -/
structure TxTrace where
  commitCalls : List (List DocumentWriteOperation × Option (List Nat))
  rollbackCalls : List (List Nat)

/-- Method `FirestoreClient::in_transaction` (client.rs lines 140–183):
begin, run the unit of work under `catch_unwind`, then
* success: reject operation counts over `MAX_BATCH_WRTIE_SIZE` (note: not
  `MAX_WRITE_OPE_IN_TX`) with a validation error, issuing neither commit nor
  rollback; otherwise commit with the accumulated operations and the token
  and return the success value (a failed commit propagates via `?` with no
  rollback);
* explicit failure or panic: roll back with the token, then return the
  original error (the panic is wrapped as
  `"panic occured in tx. rollback : ..."`); a failed rollback propagates its
  own error via `?` instead. -/
def in_transaction {R : Type}
    (beginResp : Except GrpcStatus (List Nat))
    (outcome : WorkOutcome R)
    (commitResp : Except GrpcStatus (List WriteResult))
    (rollbackResp : Except GrpcStatus Unit) :
    Except AnyhowError R × TxTrace :=
  match beginResp with
  | .error st => (.error (.grpc st), ⟨[], []⟩)
  | .ok tx =>
    match outcome with
    | .success ops v =>
      if ops.length > MAX_BATCH_WRTIE_SIZE then
        (.error (.message ("max batch write in transaction size = "
            ++ toString MAX_BATCH_WRTIE_SIZE ++ " but passed "
            ++ toString ops.length)), ⟨[], []⟩)
      else
        match commitResp with
        | .ok _ => (.ok v, ⟨[(ops, some tx)], []⟩)
        | .error st => (.error (.grpc st), ⟨[(ops, some tx)], []⟩)
    | .failure _ops e =>
      match rollbackResp with
      | .ok _ => (.error e, ⟨[], [tx]⟩)
      | .error st => (.error (.grpc st), ⟨[], [tx]⟩)
    | .panic _ops msg =>
      match rollbackResp with
      | .ok _ => (.error (.message ("panic occured in tx. rollback : " ++ msg)), ⟨[], [tx]⟩)
      | .error st => (.error (.grpc st), ⟨[], [tx]⟩)

/-! ## The serialization bridge (`src/firestore/src/firestore/value/fvalue`) -/

/-- Enum `SerdeError` (fvalue/error.rs). -/
inductive SerdeError where
  | invalidFValueVariable (s : String)
  | incompatibleDeserializeType (s : String)
  | invalidMapKey (v : FValue)
  | customError (s : String)

/-- Rust `v as i64` on a `u64` value `v < 2^64`: two's-complement
reinterpretation. -/
def u64_as_i64 (v : Nat) : Int :=
  if v < 2 ^ 63 then (v : Int) else (v : Int) - 2 ^ 64

/-- Rust `v as u64` on an `i64` value: two's-complement reinterpretation. -/
def i64_as_u64 (v : Int) : Nat :=
  (v % 2 ^ 64).toNat

/-- Method `FValueSerializer::serialize_u64` (ser.rs line 72): `Ok(FValue::from(v as i64))`. -/
def serialize_u64 (v : Nat) : Except SerdeError FValue :=
  .ok (.int (u64_as_i64 v))

/-- Method `FValueSerializeMap::end` (ser.rs lines 344–362): a struct named
`SystemTime` becomes a Timestamp built as
`UNIX_EPOCH + Duration::from_secs(secs_since_epoch)` — seconds only, the
`nanos_since_epoch` entry is never read — while any other struct (or plain
map) becomes a `Map` of the accumulated entries. -/
def serialize_map_end (struct_name : Option String)
    (map_value : List (String × FValue)) : Except SerdeError FValue :=
  match struct_name with
  | some name =>
    if name = "SystemTime" then
      let secs : Nat :=
        match (map_value.lookup "secs_since_epoch") with
        | some t => i64_as_u64 ((FValue.as_int t).getD 0)
        | Option.none => 0
      .ok (.timestamp ⟨secs, 0⟩)
    else .ok (.map map_value)
  | Option.none => .ok (.map map_value)

/-- Function `to_fvalue` applied to a `std::time::SystemTime`: serde's derived
`SystemTime` serializer emits `serialize_struct("SystemTime", 2)` with the
fields `secs_since_epoch : u64` and `nanos_since_epoch : u32`, which
`FValueSerializer` / `FValueSerializeMap` turn into the entry list below
(u64 and u32 fields pass through `serialize_u64` / `serialize_u32`), and
`FValueSerializeMap::end` finishes the struct. -/
def to_fvalue_system_time (t : RustSystemTime) : Except SerdeError FValue :=
  serialize_map_end (some "SystemTime")
    [("secs_since_epoch", .int (u64_as_i64 t.secs)),
     ("nanos_since_epoch", .int (t.nanos : Int))]

/-- Function `from_fvalue` applied at target type `std::time::SystemTime`:
`FValueDeserializer::deserialize_struct` (de.rs lines 97–125) recognises the
struct name `SystemTime`, requires the value to be a `Timestamp`, and feeds
the visitor the sequence `[secs, subsec_nanos]` through
`SeqFValueAccessForSystemTime` (de.rs lines 183–214); serde's derived
`SystemTime` deserializer rebuilds `UNIX_EPOCH + Duration::new(secs, nanos)`.
Any non-Timestamp value is an `IncompatibleDeserializeType` fault. -/
def from_fvalue_system_time (v : FValue) : Except SerdeError RustSystemTime :=
  match v with
  | .timestamp t => .ok ⟨t.secs, t.nanos⟩
  | other => .error (.incompatibleDeserializeType
      (FValue.variantName other ++ " could not deserialze to system time"))

/-! ## The pagination driver -/

/-- Modelled from the spec: the crate-root `fetch_through_all_tokens!` macro
(its live definition sits in the crate root file, which is not under `src/`;
`src/firestore/src/grpc/macros/mod.rs` keeps a commented-out copy of the
same loop, and `list_documents_all`, `list_collection_ids_all` and
`partition_query_all` in client.rs invoke it). Starting from the empty
token, it invokes the chunk fetch `f`, appends the returned items to the
accumulated result, and repeats with the returned next-token until that
token is empty. The source loop is unbounded; `fuel` bounds the number of
iterations here, and `none` means the driver did not finish within `fuel`
calls. -/
def fetch_through_all_tokens (fuel : Nat) (f : String → List α × String)
    (next_token : String) : Option (List α) :=
  match fuel with
  | 0 => Option.none
  | fuel + 1 =>
    let response := f next_token
    let items := response.1
    let next := response.2
    if next = "" then some items
    else
      match fetch_through_all_tokens fuel f next with
      | Option.none => Option.none
      | some rest => some (items ++ rest)

/-- The continuation-token chain of a chunk source `f`: token 0 is the empty
starting token, token `i+1` is the next-token returned by the `i`-th call. -/
def chainToken (f : String → List α × String) : Nat → String
  | 0 => ""
  | i + 1 => (f (chainToken f i)).2

/-! ## Concrete inputs used by witnesses -/

/-- A concrete delete operation. -/
def delOp : DocumentWriteOperation := ⟨"/test_coll/doc1", .delete, Option.none⟩

/-- A concrete create operation. -/
def createOp : DocumentWriteOperation :=
  ⟨"/test_coll/doc2", .create [("bbb", .stringValue "ssss")], Option.none⟩

/-- 900 operations, for the large-batch-write witness. -/
def ops900 : List DocumentWriteOperation := List.replicate 900 delOp

/-- 480 operations: over the enforced in-transaction bound (450), under the
declared one (500). -/
def ops480 : List DocumentWriteOperation := List.replicate 480 delOp

/-- An empty write result. -/
def wr0 : WriteResult := ⟨Option.none, []⟩

/-- A collaborator answering every batch-write call with one empty write
result per operation, in operation order. -/
def respPerOp : List DocumentWriteOperation → Except GrpcStatus (List WriteResult) :=
  fun c => .ok (c.map (fun _ => wr0))

/-- The spec's example chunk source: page `(["a","b"], "tok1")` from the
empty token, then page `(["c"], "")`. -/
def pageSource : String → List String × String :=
  fun t =>
    if t = "" then (["a", "b"], "tok1")
    else if t = "tok1" then (["c"], "")
    else ([], "")

/-! ## Member-wise induction principles for the nested value types -/

/-- Induction over `FValue` with membership hypotheses for the children of
arrays and maps. -/
def FValue.inductionDeep {P : FValue → Prop}
    (hnull : P .nullValue)
    (hstr : ∀ s, P (.str s))
    (hint : ∀ i, P (.int i))
    (hdouble : ∀ d, P (.double d))
    (hbool : ∀ b, P (.bool b))
    (hbytes : ∀ bs, P (.bytes bs))
    (hts : ∀ t, P (.timestamp t))
    (harr : ∀ vs, (∀ v ∈ vs, P v) → P (.array vs))
    (hmap : ∀ kvs, (∀ p ∈ kvs, P p.2) → P (.map kvs)) :
    ∀ v, P v
  | .nullValue => hnull
  | .str s => hstr s
  | .int i => hint i
  | .double d => hdouble d
  | .bool b => hbool b
  | .bytes bs => hbytes bs
  | .timestamp t => hts t
  | .array vs => harr vs (fun v hv =>
      FValue.inductionDeep hnull hstr hint hdouble hbool hbytes hts harr hmap v)
  | .map kvs => hmap kvs (fun p hp =>
      FValue.inductionDeep hnull hstr hint hdouble hbool hbytes hts harr hmap p.2)
termination_by v => sizeOf v
decreasing_by
  · have := List.sizeOf_lt_of_mem hv
    simp only [FValue.array.sizeOf_spec]
    omega
  · have h1 := List.sizeOf_lt_of_mem hp
    have h2 : sizeOf p.2 < sizeOf p := by
      obtain ⟨k, u⟩ := p
      simp only [Prod.mk.sizeOf_spec]
      omega
    simp only [FValue.map.sizeOf_spec]
    omega

/-- Induction over `GValue` with membership hypotheses for the children of
array and map wire values. -/
def GValue.inductionDeep {P : GValue → Prop}
    (hnone : P .none)
    (hnull : ∀ n, P (.nullValue n))
    (hbool : ∀ b, P (.booleanValue b))
    (hint : ∀ i, P (.integerValue i))
    (hdouble : ∀ d, P (.doubleValue d))
    (hts : ∀ t, P (.timestampValue t))
    (hstr : ∀ s, P (.stringValue s))
    (hbytes : ∀ bs, P (.bytesValue bs))
    (href : ∀ r, P (.referenceValue r))
    (hgeo : ∀ lat lng, P (.geoPointValue lat lng))
    (harr : ∀ ws, (∀ w ∈ ws, P w) → P (.arrayValue ws))
    (hmap : ∀ kws, (∀ p ∈ kws, P p.2) → P (.mapValue kws)) :
    ∀ w, P w
  | .none => hnone
  | .nullValue n => hnull n
  | .booleanValue b => hbool b
  | .integerValue i => hint i
  | .doubleValue d => hdouble d
  | .timestampValue t => hts t
  | .stringValue s => hstr s
  | .bytesValue bs => hbytes bs
  | .referenceValue r => href r
  | .geoPointValue lat lng => hgeo lat lng
  | .arrayValue ws => harr ws (fun w hw =>
      GValue.inductionDeep hnone hnull hbool hint hdouble hts hstr hbytes href hgeo harr hmap w)
  | .mapValue kws => hmap kws (fun p hp =>
      GValue.inductionDeep hnone hnull hbool hint hdouble hts hstr hbytes href hgeo harr hmap p.2)
termination_by w => sizeOf w
decreasing_by
  · have := List.sizeOf_lt_of_mem hw
    simp only [GValue.arrayValue.sizeOf_spec]
    omega
  · have h1 := List.sizeOf_lt_of_mem hp
    have h2 : sizeOf p.2 < sizeOf p := by
      obtain ⟨k, u⟩ := p
      simp only [Prod.mk.sizeOf_spec]
      omega
    simp only [GValue.mapValue.sizeOf_spec]
    omega

/-! ## C6: single-document get status mapping -/

/-- C6: a found document is returned as a present result; a `NotFound`
status from the collaborator becomes a successful absent result (`none`)
rather than an error; every other non-OK status is surfaced to the caller
as an error wrapping the status. -/
theorem get_document_status_mapping :
    (∀ d : GDocument, get_document (.ok d) = .ok (some d)) ∧
    (∀ st : GrpcStatus, st.code = GrpcCode.notFound →
      get_document (.error st) = .ok Option.none) ∧
    (∀ st : GrpcStatus, st.code ≠ GrpcCode.notFound →
      get_document (.error st) = .error (.grpc st)) := by
  refine ⟨fun d => rfl, fun st h => ?_, fun st h => ?_⟩
  · simp [get_document, h]
  · simp [get_document, h]

/-- Witness for C6 at concrete inputs: a found document, a `NotFound`
status, and an `Internal` status. -/
theorem get_document_status_mapping_witness :
    get_document (.ok ⟨"projects/p/databases/(default)/documents/c/d", []⟩) =
      .ok (some ⟨"projects/p/databases/(default)/documents/c/d", []⟩) ∧
    get_document (.error ⟨GrpcCode.notFound, "missing"⟩) = .ok Option.none ∧
    get_document (.error ⟨GrpcCode.internal, "boom"⟩) =
      .error (.grpc ⟨GrpcCode.internal, "boom"⟩) :=
  ⟨get_document_status_mapping.1 _,
   get_document_status_mapping.2.1 ⟨GrpcCode.notFound, "missing"⟩ (by decide),
   get_document_status_mapping.2.2 ⟨GrpcCode.internal, "boom"⟩ (by decide)⟩

/-! ## C9: `serialize_u64` is the plain `as i64` cast -/

/-- C9: serializing any `u64` value `v` always succeeds, never raising an
error, and produces the signed 64-bit integer variant holding `v`
reinterpreted in two's complement: the result is congruent to `v` modulo
`2^64`, lies in the `i64` range, and is negative exactly when `v` exceeds
`i64::MAX`. -/
theorem serialize_u64_two_complement (v : Nat) (h : v < 2 ^ 64) :
    serialize_u64 v = .ok (.int (u64_as_i64 v)) ∧
    u64_as_i64 v % 2 ^ 64 = (v : Int) % 2 ^ 64 ∧
    -(2 ^ 63) ≤ u64_as_i64 v ∧ u64_as_i64 v < 2 ^ 63 ∧
    (2 ^ 63 - 1 < (v : Int) → u64_as_i64 v < 0) := by
  have h64 : ((2 : Int) ^ 64) = 18446744073709551616 := by norm_num
  have h63 : ((2 : Int) ^ 63) = 9223372036854775808 := by norm_num
  have hn63 : ((2 : Nat) ^ 63) = 9223372036854775808 := by norm_num
  have hn64 : ((2 : Nat) ^ 64) = 18446744073709551616 := by norm_num
  refine ⟨rfl, ?_, ?_, ?_, ?_⟩ <;>
    · unfold u64_as_i64
      split <;> omega

/-- Witness for C9 at `v = 2^64 - 1` (greater than `i64::MAX`): the cast
succeeds and the resulting integer is negative. -/
theorem serialize_u64_two_complement_witness :
    18446744073709551615 < 2 ^ 64 ∧
    serialize_u64 18446744073709551615 = .ok (.int (u64_as_i64 18446744073709551615)) ∧
    u64_as_i64 18446744073709551615 < 0 :=
  ⟨by norm_num,
   (serialize_u64_two_complement 18446744073709551615 (by norm_num)).1,
   (serialize_u64_two_complement 18446744073709551615 (by norm_num)).2.2.2.2
     (by norm_num)⟩

/-! ## C4: the depth guard boundary of `to_grpc_value` -/

/-- C4: converting to the wire form succeeds for a value nested exactly 20
container levels deep (both the array-of-array and the map-of-map chain) and
aborts with the fatal `assert!` fault — `none` here — for a value nested 21
levels deep, because the recursive conversion carries a depth counter and
exceeding 20 aborts. -/
theorem to_grpc_value_depth_boundary :
    (to_grpc_value (nestedArray 20)).isSome = true ∧
    to_grpc_value (nestedArray 21) = Option.none ∧
    (to_grpc_value (nestedMap 20)).isSome = true ∧
    to_grpc_value (nestedMap 21) = Option.none :=
  ⟨rfl, rfl, rfl, rfl⟩

/-! ## C7: the `SystemTime` bridge -/

/-- Casting a `u64` to `i64` and back is the identity below `2^64`. -/
theorem i64_as_u64_u64_as_i64 (v : Nat) (h : v < 2 ^ 64) :
    i64_as_u64 (u64_as_i64 v) = v := by
  have h64 : ((2 : Int) ^ 64) = 18446744073709551616 := by norm_num
  have hn63 : ((2 : Nat) ^ 63) = 9223372036854775808 := by norm_num
  have hn64 : ((2 : Nat) ^ 64) = 18446744073709551616 := by norm_num
  unfold i64_as_u64 u64_as_i64
  split <;> omega

/-- C7 counterexample: serializing the `SystemTime` record one second and
five nanoseconds after the epoch yields a Timestamp whose nanoseconds are 0,
not 5 — `FValueSerializeMap::end` reads only the `secs_since_epoch` entry —
so the nanoseconds component is not carried through on the serialize
direction, and the serialize/deserialize round trip loses it. -/
theorem system_time_nanos_counterexample :
    to_fvalue_system_time ⟨1, 5⟩ = .ok (.timestamp ⟨1, 0⟩) ∧
    from_fvalue_system_time (.timestamp ⟨1, 0⟩) = .ok ⟨1, 0⟩ ∧
    (⟨1, 0⟩ : RustSystemTime) ≠ ⟨1, 5⟩ :=
  ⟨rfl, rfl, by decide⟩

/-- C7 amended: the bridge recognizes the specially-named `SystemTime`
record and converts via the Unix epoch pair rather than a generic map:
serializing yields a Timestamp Field Value carrying the seconds component
(nanoseconds are dropped to 0, since only the `secs_since_epoch` entry is
read), and deserializing a Timestamp Field Value yields the record back
with both the seconds and the nanoseconds components carried through. -/
theorem system_time_bridge (t : RustSystemTime) (h : t.secs < 2 ^ 64) :
    to_fvalue_system_time t = .ok (.timestamp ⟨t.secs, 0⟩) ∧
    (∀ u : RustSystemTime, from_fvalue_system_time (.timestamp u) = .ok u) := by
  constructor
  · unfold to_fvalue_system_time serialize_map_end
    simp [List.lookup, FValue.as_int, i64_as_u64_u64_as_i64 t.secs h]
  · intro u
    rfl

/-- Witness for C7 (amended) at `t = ⟨3, 7⟩`. -/
theorem system_time_bridge_witness :
    (3 : Nat) < 2 ^ 64 ∧
    to_fvalue_system_time ⟨3, 7⟩ = .ok (.timestamp ⟨3, 0⟩) ∧
    from_fvalue_system_time (.timestamp ⟨3, 7⟩) = .ok ⟨3, 7⟩ :=
  ⟨by norm_num,
   (system_time_bridge ⟨3, 7⟩ (by norm_num)).1,
   (system_time_bridge ⟨3, 7⟩ (by norm_num)).2 ⟨3, 7⟩⟩

/-! ## C1: the commit path of `in_transaction` -/

set_option maxRecDepth 10000 in
/-- C1 counterexample: a unit of work that completes successfully having
accumulated 480 operations — at most the claimed in-transaction limit of
500, so the claim predicts a commit carrying the operations and the success
value returned — instead receives a validation error, and no commit (and no
rollback) call is issued: `in_transaction` compares the count against
`MAX_BATCH_WRTIE_SIZE` (450), not `MAX_WRITE_OPE_IN_TX` (500). -/
theorem in_transaction_limit_counterexample :
    ops480.length ≤ MAX_WRITE_OPE_IN_TX ∧
    (in_transaction (R := Nat) (.ok [1]) (.success ops480 7)
        (.ok []) (.ok ())).1 =
      .error (.message "max batch write in transaction size = 450 but passed 480") ∧
    (∀ v : Nat, (in_transaction (R := Nat) (.ok [1]) (.success ops480 7)
        (.ok []) (.ok ())).1 ≠ .ok v) ∧
    (in_transaction (R := Nat) (.ok [1]) (.success ops480 7)
        (.ok []) (.ok ())).2.commitCalls = [] ∧
    (in_transaction (R := Nat) (.ok [1]) (.success ops480 7)
        (.ok []) (.ok ())).2.rollbackCalls = [] := by
  refine ⟨by decide, rfl, ?_, rfl, rfl⟩
  intro v h
  exact Except.noConfusion h

/-- C1 amended: for a unit of work that completes successfully, the
accumulated operation count is checked against `MAX_BATCH_WRTIE_SIZE`
(450, the batch-write limit — not the declared in-transaction limit
`MAX_WRITE_OPE_IN_TX` of 500): exceeding 450 returns a validation error
with neither a commit nor a rollback call issued (the transaction token is
discarded); at 450 or below, exactly one commit call is issued carrying all
accumulated operations plus the transaction token, no rollback call is
issued, and when the commit succeeds the caller receives the unit of work's
success value. -/
theorem in_transaction_commit_path {R : Type} (tx : List Nat)
    (ops : List DocumentWriteOperation) (v : R)
    (commitResp : Except GrpcStatus (List WriteResult))
    (rollbackResp : Except GrpcStatus Unit) :
    (MAX_BATCH_WRTIE_SIZE < ops.length →
      in_transaction (.ok tx) (.success ops v) commitResp rollbackResp =
        (.error (.message ("max batch write in transaction size = "
            ++ toString MAX_BATCH_WRTIE_SIZE ++ " but passed "
            ++ toString ops.length)), ⟨[], []⟩)) ∧
    (ops.length ≤ MAX_BATCH_WRTIE_SIZE →
      (in_transaction (.ok tx) (.success ops v) commitResp rollbackResp).2 =
        ⟨[(ops, some tx)], []⟩ ∧
      (∀ wrs, commitResp = .ok wrs →
        (in_transaction (.ok tx) (.success ops v) commitResp rollbackResp).1 = .ok v)) := by
  constructor
  · intro h
    simp only [in_transaction, if_pos (by omega : ops.length > MAX_BATCH_WRTIE_SIZE)]
  · intro h
    have hnot : ¬ (ops.length > MAX_BATCH_WRTIE_SIZE) := by omega
    constructor
    · simp only [in_transaction, if_neg hnot]
      cases commitResp <;> rfl
    · intro wrs hw
      subst hw
      simp only [in_transaction, if_neg hnot]

/-- Witness for C1 (amended): one accumulated delete operation, a commit
collaborator that succeeds; the engine issues one commit with the token and
returns the success value 100. -/
theorem in_transaction_commit_path_witness :
    ([delOp].length ≤ MAX_BATCH_WRTIE_SIZE) ∧
    (in_transaction (R := Nat) (.ok [1, 2]) (.success [delOp] 100)
        (.ok []) (.ok ())).2 = ⟨[([delOp], some [1, 2])], []⟩ ∧
    (in_transaction (R := Nat) (.ok [1, 2]) (.success [delOp] 100)
        (.ok []) (.ok ())).1 = .ok 100 :=
  ⟨by decide,
   ((in_transaction_commit_path [1, 2] [delOp] 100 (.ok []) (.ok ())).2
      (by decide)).1,
   ((in_transaction_commit_path [1, 2] [delOp] 100 (.ok []) (.ok ())).2
      (by decide)).2 [] rfl⟩

/-! ## C2: the rollback path of `in_transaction` -/

/-- C2: for a unit of work that returns an explicit error or terminates by
panic, the engine issues exactly one rollback call carrying the transaction
token obtained from begin, never issues a commit call, and returns the
original failure to the caller — the panic case wrapped in an error noting
that a panic occurred during the transactional body; when the rollback call
itself fails, its error is propagated instead, with no retry. -/
theorem in_transaction_rollback_path {R : Type} (tx : List Nat)
    (ops : List DocumentWriteOperation) (e : AnyhowError) (msg : String)
    (commitResp : Except GrpcStatus (List WriteResult))
    (rollbackResp : Except GrpcStatus Unit) :
    ((in_transaction (R := R) (.ok tx) (.failure ops e) commitResp rollbackResp).2 =
        ⟨[], [tx]⟩ ∧
      (rollbackResp = .ok () →
        (in_transaction (R := R) (.ok tx) (.failure ops e) commitResp rollbackResp).1 =
          .error e) ∧
      (∀ st, rollbackResp = .error st →
        (in_transaction (R := R) (.ok tx) (.failure ops e) commitResp rollbackResp).1 =
          .error (.grpc st))) ∧
    ((in_transaction (R := R) (.ok tx) (.panic ops msg) commitResp rollbackResp).2 =
        ⟨[], [tx]⟩ ∧
      (rollbackResp = .ok () →
        (in_transaction (R := R) (.ok tx) (.panic ops msg) commitResp rollbackResp).1 =
          .error (.message ("panic occured in tx. rollback : " ++ msg))) ∧
      (∀ st, rollbackResp = .error st →
        (in_transaction (R := R) (.ok tx) (.panic ops msg) commitResp rollbackResp).1 =
          .error (.grpc st))) := by
  refine ⟨⟨?_, ?_, ?_⟩, ⟨?_, ?_, ?_⟩⟩
  · cases rollbackResp <;> rfl
  · intro h; subst h; rfl
  · intro st h; subst h; rfl
  · cases rollbackResp <;> rfl
  · intro h; subst h; rfl
  · intro st h; subst h; rfl

/-- Witness for C2: an explicit failure and a panic, each with one
accumulated create operation and a successful rollback collaborator. -/
theorem in_transaction_rollback_path_witness :
    (in_transaction (R := Nat) (.ok [9]) (.failure [createOp] (.message "something went wrong"))
        (.ok []) (.ok ())).2 = ⟨[], [[9]]⟩ ∧
    (in_transaction (R := Nat) (.ok [9]) (.failure [createOp] (.message "something went wrong"))
        (.ok []) (.ok ())).1 = .error (.message "something went wrong") ∧
    (in_transaction (R := Nat) (.ok [9]) (.panic [createOp] "something went south")
        (.ok []) (.ok ())).1 =
      .error (.message ("panic occured in tx. rollback : " ++ "something went south")) :=
  ⟨(in_transaction_rollback_path (R := Nat) [9] [createOp]
      (.message "something went wrong") "something went south" (.ok []) (.ok ())).1.1,
   (in_transaction_rollback_path (R := Nat) [9] [createOp]
      (.message "something went wrong") "something went south" (.ok []) (.ok ())).1.2.1 rfl,
   (in_transaction_rollback_path (R := Nat) [9] [createOp]
      (.message "something went wrong") "something went south" (.ok []) (.ok ())).2.2.1 rfl⟩

/-! ## C5: `large_batch_write` chunking -/

/-- Concatenating the chunks gives the input list back: chunking preserves
the input order across chunk boundaries. -/
theorem chunks_go_join {α : Type} (n : Nat) (hn : 1 ≤ n) :
    ∀ (fuel : Nat) (l : List α), l.length ≤ fuel → (chunks_go fuel n l).flatten = l := by
  intro fuel
  induction fuel with
  | zero =>
    intro l hl
    have : l = [] := List.eq_nil_of_length_eq_zero (by omega)
    subst this
    rfl
  | succ fuel ih =>
    intro l hl
    match l with
    | [] => rfl
    | x :: xs =>
      show ((x :: xs).take n :: chunks_go fuel n ((x :: xs).drop n)).flatten = x :: xs
      have hdrop : ((x :: xs).drop n).length ≤ fuel := by
        simp only [List.length_drop, List.length_cons]
        simp only [List.length_cons] at hl
        omega
      rw [List.flatten_cons, ih _ hdrop, List.take_append_drop]

/-- Every chunk produced by `chunks_go` holds at most `n` operations. -/
theorem chunks_go_length_le {α : Type} (n : Nat) (hn : 1 ≤ n) :
    ∀ (fuel : Nat) (l : List α), l.length ≤ fuel →
      ∀ c ∈ chunks_go fuel n l, c.length ≤ n := by
  intro fuel
  induction fuel with
  | zero =>
    intro l hl c hc
    have : l = [] := List.eq_nil_of_length_eq_zero (by omega)
    subst this
    simp [chunks_go] at hc
  | succ fuel ih =>
    intro l hl c hc
    match l with
    | [] => simp [chunks_go] at hc
    | x :: xs =>
      have hc : c = (x :: xs).take n ∨ c ∈ chunks_go fuel n ((x :: xs).drop n) := by
        simpa [chunks_go] using hc
      rcases hc with hc | hc
      · subst hc
        simp only [List.length_take]
        omega
      · have hdrop : ((x :: xs).drop n).length ≤ fuel := by
          simp only [List.length_drop, List.length_cons]
          simp only [List.length_cons] at hl
          omega
        exact ih _ hdrop c hc

/-- The chunk loop of `large_batch_write`: when every batch-write RPC
answers with one result per operation, in operation order, the loop issues
one call per chunk, in chunk order, and concatenates the per-chunk
results. -/
theorem large_batch_write_go_per_op
    (respond : List DocumentWriteOperation → Except GrpcStatus (List WriteResult))
    (g : DocumentWriteOperation → WriteResult)
    (h : ∀ c, respond c = .ok (List.map g c)) :
    ∀ chunkList : List (List DocumentWriteOperation),
      (∀ c ∈ chunkList, c.length ≤ MAX_BATCH_WRTIE_SIZE) →
      large_batch_write_go respond chunkList =
        (.ok (List.map g chunkList.flatten), chunkList) := by
  intro chunkList
  induction chunkList with
  | nil => intro _; rfl
  | cons c rest ih =>
    intro hle
    have hc : c.length ≤ MAX_BATCH_WRTIE_SIZE := hle c (by simp)
    have hrest : ∀ d ∈ rest, d.length ≤ MAX_BATCH_WRTIE_SIZE :=
      fun d hd => hle d (by simp [hd])
    have hbw : batch_write respond c = (.ok (List.map g c), [c]) := by
      unfold batch_write
      rw [if_neg (by omega), h c]
    unfold large_batch_write_go
    rw [hbw, ih hrest]
    simp [List.flatten_cons, List.map_append]

/-- C5: `large_batch_write` splits its input into successive chunks of at
most `MAX_BATCH_WRTIE_SIZE` (450) operations preserving input order, issues
exactly one batch-write network call per chunk, sequentially in chunk
order (the issued calls are exactly the chunk list, whose concatenation is
the input), and — when each call answers with one write-result per
operation, in operation order — returns all returned write-results
concatenated in call order, i.e. one result per input operation in input
order. -/
theorem large_batch_write_chunked
    (respond : List DocumentWriteOperation → Except GrpcStatus (List WriteResult))
    (g : DocumentWriteOperation → WriteResult)
    (h : ∀ c, respond c = .ok (List.map g c))
    (operations : List DocumentWriteOperation) :
    large_batch_write respond operations =
      (.ok (List.map g operations), chunksOf MAX_BATCH_WRTIE_SIZE operations) ∧
    (chunksOf MAX_BATCH_WRTIE_SIZE operations).flatten = operations ∧
    (∀ c ∈ chunksOf MAX_BATCH_WRTIE_SIZE operations,
      c.length ≤ MAX_BATCH_WRTIE_SIZE) := by
  have hn : 1 ≤ MAX_BATCH_WRTIE_SIZE := by norm_num [MAX_BATCH_WRTIE_SIZE]
  have hjoin : (chunksOf MAX_BATCH_WRTIE_SIZE operations).flatten = operations :=
    chunks_go_join MAX_BATCH_WRTIE_SIZE hn operations.length operations le_rfl
  have hle : ∀ c ∈ chunksOf MAX_BATCH_WRTIE_SIZE operations,
      c.length ≤ MAX_BATCH_WRTIE_SIZE :=
    chunks_go_length_le MAX_BATCH_WRTIE_SIZE hn operations.length operations le_rfl
  refine ⟨?_, hjoin, hle⟩
  show large_batch_write_go respond (chunksOf MAX_BATCH_WRTIE_SIZE operations) = _
  rw [large_batch_write_go_per_op respond g h _ hle, hjoin]

set_option maxRecDepth 100000 in
/-- Witness for C5: 900 operations with a per-operation collaborator issue
exactly 2 batch calls of 450 operations each and return 900 results. -/
theorem large_batch_write_chunked_witness :
    ops900.length = 900 ∧
    large_batch_write respPerOp ops900 =
      (.ok (List.map (fun _ => wr0) ops900),
        [List.replicate 450 delOp, List.replicate 450 delOp]) ∧
    (List.map (fun _ => wr0) ops900).length = 900 := by
  refine ⟨by simp [ops900], ?_, by simp [ops900]⟩
  have h := (large_batch_write_chunked respPerOp (fun _ => wr0)
    (fun c => rfl) ops900).1
  rw [h]
  rfl

/-! ## C8: the generic pagination driver -/

/-- Prepending page `k` to the concatenation of pages `k+1 … k+d+1` gives
the concatenation of pages `k … k+d+1`. -/
theorem pages_cons {α : Type} (g : Nat → List α) (k d : Nat) :
    g k ++ (List.map (fun j => g (k + 1 + j)) (List.range (d + 1))).flatten =
    (List.map (fun j => g (k + j)) (List.range (d + 1 + 1))).flatten := by
  conv_rhs => rw [List.range_succ_eq_map]
  simp only [List.map_cons, Nat.add_zero, List.flatten_cons, List.map_map]
  have hfun : ((fun j => g (k + j)) ∘ Nat.succ) = (fun j => g (k + 1 + j)) := by
    funext j
    simp only [Function.comp_apply]
    congr 1
    omega
  rw [hfun]

/-- The driver run from the `k`-th token of a terminating chain returns the
concatenation of the remaining pages, in fetch order. -/
theorem fetch_through_all_tokens_aux {α : Type} (f : String → List α × String) (n : Nat)
    (hstop : (f (chainToken f n)).2 = "")
    (hrun : ∀ i, i < n → (f (chainToken f i)).2 ≠ "") :
    ∀ (d k : Nat), k + d = n → ∀ (fuel : Nat), d < fuel →
      fetch_through_all_tokens fuel f (chainToken f k) =
        some (((List.range (d + 1)).map
          (fun j => (f (chainToken f (k + j))).1)).flatten) := by
  intro d
  induction d with
  | zero =>
    intro k hk fuel hfuel
    have hkn : k = n := by omega
    subst hkn
    cases fuel with
    | zero => omega
    | succ m =>
      have h1 : List.range 1 = [0] := rfl
      simp [fetch_through_all_tokens, hstop, h1]
  | succ d ih =>
    intro k hk fuel hfuel
    cases fuel with
    | zero => omega
    | succ m =>
      have hnext : ¬ ((f (chainToken f k)).2 = "") := hrun k (by omega)
      have hchain : (f (chainToken f k)).2 = chainToken f (k + 1) := rfl
      have hne : ¬ (chainToken f (k + 1) = "") := by rw [← hchain]; exact hnext
      have hih := ih (k + 1) (by omega) m (by omega)
      show fetch_through_all_tokens (m + 1) f (chainToken f k) = _
      simp only [fetch_through_all_tokens]
      rw [hchain, if_neg hne, hih]
      show some ((f (chainToken f k)).1 ++
        (List.map (fun j => (f (chainToken f (k + 1 + j))).1)
          (List.range (d + 1))).flatten) = _
      exact congrArg some (pages_cons (fun i => (f (chainToken f i)).1) k d)

/-- C8: for every chunk-fetch operation mapping a continuation token to
(items, next-token) whose token chain reaches the empty token after `n + 1`
calls, the pagination driver invokes it first with the empty token, repeats
with each returned token, stops exactly when the returned next-token is
empty, and returns the concatenation of all returned chunks in fetch
order. -/
theorem fetch_through_all_tokens_paginates {α : Type}
    (f : String → List α × String) (n : Nat)
    (hstop : (f (chainToken f n)).2 = "")
    (hrun : ∀ i, i < n → (f (chainToken f i)).2 ≠ "")
    (fuel : Nat) (hfuel : n < fuel) :
    fetch_through_all_tokens fuel f "" =
      some (((List.range (n + 1)).map
        (fun i => (f (chainToken f i)).1)).flatten) := by
  have h := fetch_through_all_tokens_aux f n hstop hrun n 0 (by omega) fuel hfuel
  simpa [chainToken] using h

/-- Witness for C8: the spec's example source returns pages
`(["a","b"], "tok1")` then `(["c"], "")`; the driver yields
`["a","b","c"]`. -/
theorem fetch_through_all_tokens_paginates_witness :
    fetch_through_all_tokens 2 pageSource "" = some ["a", "b", "c"] := by
  have h := fetch_through_all_tokens_paginates pageSource 1 rfl
    (by intro i hi; have h0 : i = 0 := (by omega); subst h0; decide) 2 (by omega)
  exact h.trans (by rfl)

/-! ## C3: the wire round trip -/

/-- A member of an array contributes its depth plus one container. -/
theorem nestingDepth_mem_list {v : FValue} {vs : List FValue} (h : v ∈ vs) :
    nestingDepth v + 1 ≤ nestingDepthList vs := by
  induction vs with
  | nil => cases h
  | cons u us ih =>
    rcases List.mem_cons.mp h with h | h
    · subst h
      simp only [nestingDepthList]
      omega
    · have := ih h
      simp only [nestingDepthList]
      omega

/-- A member of a map contributes its value's depth plus one container. -/
theorem nestingDepth_mem_entries {p : String × FValue} {kvs : List (String × FValue)}
    (h : p ∈ kvs) : nestingDepth p.2 + 1 ≤ nestingDepthEntries kvs := by
  induction kvs with
  | nil => cases h
  | cons q qs ih =>
    obtain ⟨k, u⟩ := q
    rcases List.mem_cons.mp h with h | h
    · subst h
      simp only [nestingDepthEntries]
      omega
    · have := ih h
      simp only [nestingDepthEntries]
      omega

/-- Child list of a successful array conversion, from memberwise success. -/
theorem to_grpc_values_some (vs : List FValue) (d : Int)
    (h : ∀ v ∈ vs, ∃ w, to_grpc_value_with_depth v d = some w) :
    ∃ ws, to_grpc_values vs d = some ws := by
  induction vs with
  | nil => exact ⟨[], rfl⟩
  | cons v vs ih =>
    obtain ⟨w, hw⟩ := h v (by simp)
    obtain ⟨ws, hws⟩ := ih (fun u hu => h u (by simp [hu]))
    refine ⟨w :: ws, ?_⟩
    simp only [to_grpc_values]
    rw [hw, hws]

/-- Child list of a successful map conversion, from memberwise success. -/
theorem to_grpc_map_entries_some (kvs : List (String × FValue)) (d : Int)
    (h : ∀ p ∈ kvs, ∃ w, to_grpc_value_with_depth p.2 d = some w) :
    ∃ ws, to_grpc_map_entries kvs d = some ws := by
  induction kvs with
  | nil => exact ⟨[], rfl⟩
  | cons q qs ih =>
    obtain ⟨k, v⟩ := q
    obtain ⟨w, hw⟩ := h (k, v) (by simp)
    obtain ⟨ws, hws⟩ := ih (fun p hp => h p (by simp [hp]))
    refine ⟨(k, w) :: ws, ?_⟩
    simp only [to_grpc_map_entries]
    rw [hw, hws]

/-- The conversion to the wire form succeeds whenever the depth counter plus
the value's nesting depth stays within the guard. -/
theorem to_grpc_some_of_nestingDepth (v : FValue) :
    ∀ d : Int, d + (nestingDepth v : Int) ≤ 20 →
      ∃ w, to_grpc_value_with_depth v d = some w := by
  induction v using FValue.inductionDeep with
  | hnull =>
    intro d h
    simp only [nestingDepth] at h
    exact ⟨_, by rw [to_grpc_value_with_depth, if_pos (by omega : d ≤ 20)]⟩
  | hstr s =>
    intro d h
    simp only [nestingDepth] at h
    exact ⟨_, by rw [to_grpc_value_with_depth, if_pos (by omega : d ≤ 20)]⟩
  | hint i =>
    intro d h
    simp only [nestingDepth] at h
    exact ⟨_, by rw [to_grpc_value_with_depth, if_pos (by omega : d ≤ 20)]⟩
  | hdouble x =>
    intro d h
    simp only [nestingDepth] at h
    exact ⟨_, by rw [to_grpc_value_with_depth, if_pos (by omega : d ≤ 20)]⟩
  | hbool b =>
    intro d h
    simp only [nestingDepth] at h
    exact ⟨_, by rw [to_grpc_value_with_depth, if_pos (by omega : d ≤ 20)]⟩
  | hbytes bs =>
    intro d h
    simp only [nestingDepth] at h
    exact ⟨_, by rw [to_grpc_value_with_depth, if_pos (by omega : d ≤ 20)]⟩
  | hts t =>
    intro d h
    simp only [nestingDepth] at h
    exact ⟨_, by rw [to_grpc_value_with_depth, if_pos (by omega : d ≤ 20)]⟩
  | harr vs ihm =>
    intro d h
    simp only [nestingDepth] at h
    have hchild : ∀ u ∈ vs, ∃ w, to_grpc_value_with_depth u (d + 1) = some w := by
      intro u hu
      have hb := nestingDepth_mem_list hu
      exact ihm u hu (d + 1) (by omega)
    obtain ⟨ws, hws⟩ := to_grpc_values_some vs (d + 1) hchild
    refine ⟨.arrayValue ws, ?_⟩
    simp only [to_grpc_value_with_depth, if_pos (by omega : d ≤ 20)]
    rw [hws]
    rfl
  | hmap kvs ihm =>
    intro d h
    simp only [nestingDepth] at h
    have hchild : ∀ p ∈ kvs, ∃ w, to_grpc_value_with_depth p.2 (d + 1) = some w := by
      intro p hp
      have hb := nestingDepth_mem_entries hp
      exact ihm p hp (d + 1) (by omega)
    obtain ⟨ws, hws⟩ := to_grpc_map_entries_some kvs (d + 1) hchild
    refine ⟨.mapValue ws, ?_⟩
    simp only [to_grpc_value_with_depth, if_pos (by omega : d ≤ 20)]
    rw [hws]
    rfl

/-- Converting an array's children to the wire form and back restores them,
from the memberwise round trip. -/
theorem from_to_grpc_values (vs : List FValue)
    (ihm : ∀ v ∈ vs, ∀ (d : Int) (w : GValue), to_grpc_value_with_depth v d = some w →
      ∀ e : Int, from_grpc_value_with_depth w e = some v) :
    ∀ (d : Int) (ws : List GValue), to_grpc_values vs d = some ws →
      ∀ e : Int, from_grpc_values ws e = some vs := by
  induction vs with
  | nil =>
    intro d ws h e
    simp only [to_grpc_values] at h
    cases h
    rfl
  | cons v vs ih =>
    intro d ws h e
    simp only [to_grpc_values] at h
    cases hw : to_grpc_value_with_depth v d with
    | none => rw [hw] at h; cases h
    | some w =>
      rw [hw] at h
      cases hws : to_grpc_values vs d with
      | none => rw [hws] at h; cases h
      | some ws0 =>
        rw [hws] at h
        cases h
        have h1 := ihm v (by simp) d w hw e
        have h2 := ih (fun u hu => ihm u (by simp [hu])) d ws0 hws e
        simp only [from_grpc_values]
        rw [h1, h2]

/-- Converting a map's entries to the wire form and back restores them,
from the memberwise round trip. -/
theorem from_to_grpc_map_entries (kvs : List (String × FValue))
    (ihm : ∀ p ∈ kvs, ∀ (d : Int) (w : GValue), to_grpc_value_with_depth p.2 d = some w →
      ∀ e : Int, from_grpc_value_with_depth w e = some p.2) :
    ∀ (d : Int) (ws : List (String × GValue)), to_grpc_map_entries kvs d = some ws →
      ∀ e : Int, from_grpc_map_entries ws e = some kvs := by
  induction kvs with
  | nil =>
    intro d ws h e
    simp only [to_grpc_map_entries] at h
    cases h
    rfl
  | cons q qs ih =>
    intro d ws h e
    obtain ⟨k, v⟩ := q
    simp only [to_grpc_map_entries] at h
    cases hw : to_grpc_value_with_depth v d with
    | none => rw [hw] at h; cases h
    | some w =>
      rw [hw] at h
      cases hws : to_grpc_map_entries qs d with
      | none => rw [hws] at h; cases h
      | some ws0 =>
        rw [hws] at h
        cases h
        have h1 := ihm (k, v) (by simp) d w hw e
        have h2 := ih (fun p hp => ihm p (by simp [hp])) d ws0 hws e
        simp only [from_grpc_map_entries]
        rw [h1, h2]

/-- Whatever wire value the depth-guarded conversion produces converts back
to the original `FValue`, at any depth counter. -/
theorem from_to_grpc_value (v : FValue) :
    ∀ (d : Int) (w : GValue), to_grpc_value_with_depth v d = some w →
      ∀ e : Int, from_grpc_value_with_depth w e = some v := by
  induction v using FValue.inductionDeep with
  | hnull =>
    intro d w h e
    simp only [to_grpc_value_with_depth] at h
    split at h
    · cases h; rfl
    · cases h
  | hstr s =>
    intro d w h e
    simp only [to_grpc_value_with_depth] at h
    split at h
    · cases h; rfl
    · cases h
  | hint i =>
    intro d w h e
    simp only [to_grpc_value_with_depth] at h
    split at h
    · cases h; rfl
    · cases h
  | hdouble x =>
    intro d w h e
    simp only [to_grpc_value_with_depth] at h
    split at h
    · cases h; rfl
    · cases h
  | hbool b =>
    intro d w h e
    simp only [to_grpc_value_with_depth] at h
    split at h
    · cases h; rfl
    · cases h
  | hbytes bs =>
    intro d w h e
    simp only [to_grpc_value_with_depth] at h
    split at h
    · cases h; rfl
    · cases h
  | hts t =>
    intro d w h e
    simp only [to_grpc_value_with_depth] at h
    split at h
    · cases h; rfl
    · cases h
  | harr vs ihm =>
    intro d w h e
    simp only [to_grpc_value_with_depth] at h
    split at h
    · cases hws : to_grpc_values vs (d + 1) with
      | none => rw [hws] at h; cases h
      | some ws =>
        rw [hws] at h
        cases h
        have h2 := from_to_grpc_values vs ihm (d + 1) ws hws (e + 1)
        simp only [from_grpc_value_with_depth]
        rw [h2]
        rfl
    · cases h
  | hmap kvs ihm =>
    intro d w h e
    simp only [to_grpc_value_with_depth] at h
    split at h
    · cases hws : to_grpc_map_entries kvs (d + 1) with
      | none => rw [hws] at h; cases h
      | some ws =>
        rw [hws] at h
        cases h
        have h2 := from_to_grpc_map_entries kvs ihm (d + 1) ws hws (e + 1)
        simp only [from_grpc_value_with_depth]
        rw [h2]
        rfl
    · cases h

/-- C3: for every Field Value built from the supported variants whose
nesting depth is at most 20, converting to the wire value form succeeds and
converting the result back yields the original value:
`from_wire(to_wire(v)) = v`. -/
theorem wire_roundtrip (v : FValue) (h : nestingDepth v ≤ 20) :
    ∃ w, to_grpc_value v = some w ∧ from_grpc_value w = some v := by
  obtain ⟨w, hw⟩ := to_grpc_some_of_nestingDepth v 0 (by omega)
  exact ⟨w, hw, from_to_grpc_value v 0 w hw 0⟩

/-- Witness for C3: a concrete value exercising every supported variant. -/
theorem wire_roundtrip_witness :
    nestingDepth (FValue.array
      [.int 3, .map [("k", .str "x"), ("t", .timestamp ⟨5, 6⟩)],
       .double 77, .bytes [1, 2], .bool true, .nullValue]) ≤ 20 ∧
    ∃ w, to_grpc_value (FValue.array
      [.int 3, .map [("k", .str "x"), ("t", .timestamp ⟨5, 6⟩)],
       .double 77, .bytes [1, 2], .bool true, .nullValue]) = some w ∧
      from_grpc_value w = some (FValue.array
      [.int 3, .map [("k", .str "x"), ("t", .timestamp ⟨5, 6⟩)],
       .double 77, .bytes [1, 2], .bool true, .nullValue]) :=
  ⟨by decide, wire_roundtrip _ (by decide)⟩

/-! ## C10: no depth limit on the wire-to-Field-Value direction -/

/-- The children of an array wire value convert independently of the depth
counter, from the memberwise statement. -/
theorem from_grpc_values_depth_irrel (ws : List GValue)
    (ihm : ∀ w ∈ ws, ∀ d e : Int,
      from_grpc_value_with_depth w d = from_grpc_value_with_depth w e) :
    ∀ d e : Int, from_grpc_values ws d = from_grpc_values ws e := by
  induction ws with
  | nil => intro d e; rfl
  | cons w ws ih =>
    intro d e
    simp only [from_grpc_values]
    rw [ihm w (by simp) d e, ih (fun u hu => ihm u (by simp [hu])) d e]

/-- The entries of a map wire value convert independently of the depth
counter, from the memberwise statement. -/
theorem from_grpc_map_entries_depth_irrel (kws : List (String × GValue))
    (ihm : ∀ p ∈ kws, ∀ d e : Int,
      from_grpc_value_with_depth p.2 d = from_grpc_value_with_depth p.2 e) :
    ∀ d e : Int, from_grpc_map_entries kws d = from_grpc_map_entries kws e := by
  induction kws with
  | nil => intro d e; rfl
  | cons q qs ih =>
    intro d e
    obtain ⟨k, w⟩ := q
    simp only [from_grpc_map_entries]
    rw [ihm (k, w) (by simp) d e, ih (fun p hp => ihm p (by simp [hp])) d e]

/-- The depth counter threaded through `from_grpc_value_with_depth` never
influences the result: it is incremented but never compared against any
bound. -/
theorem from_grpc_value_depth_irrel (w : GValue) :
    ∀ d e : Int, from_grpc_value_with_depth w d = from_grpc_value_with_depth w e := by
  induction w using GValue.inductionDeep with
  | hnone => intro d e; rfl
  | hnull n => intro d e; rfl
  | hbool b => intro d e; rfl
  | hint i => intro d e; rfl
  | hdouble x => intro d e; rfl
  | hts t => intro d e; rfl
  | hstr s => intro d e; rfl
  | hbytes bs => intro d e; rfl
  | href r => intro d e; rfl
  | hgeo lat lng => intro d e; rfl
  | harr ws ihm =>
    intro d e
    simp only [from_grpc_value_with_depth]
    rw [from_grpc_values_depth_irrel ws ihm (d + 1) (e + 1)]
  | hmap kws ihm =>
    intro d e
    simp only [from_grpc_value_with_depth]
    rw [from_grpc_map_entries_depth_irrel kws ihm (d + 1) (e + 1)]

/-- Supported children of an array wire value all convert, from the
memberwise statement. -/
theorem from_grpc_values_some_of_supported (ws : List GValue)
    (ihm : ∀ w ∈ ws, supportedWire w = true →
      ∀ d : Int, ∃ v, from_grpc_value_with_depth w d = some v)
    (h : supportedWireList ws = true) :
    ∀ d : Int, ∃ vs, from_grpc_values ws d = some vs := by
  induction ws with
  | nil => intro d; exact ⟨[], rfl⟩
  | cons w ws ih =>
    intro d
    simp only [supportedWireList, Bool.and_eq_true] at h
    obtain ⟨v, hv⟩ := ihm w (by simp) h.1 d
    obtain ⟨vs, hvs⟩ := ih (fun u hu => ihm u (by simp [hu])) h.2 d
    refine ⟨v :: vs, ?_⟩
    simp only [from_grpc_values]
    rw [hv, hvs]

/-- Supported entries of a map wire value all convert, from the memberwise
statement. -/
theorem from_grpc_map_entries_some_of_supported (kws : List (String × GValue))
    (ihm : ∀ p ∈ kws, supportedWire p.2 = true →
      ∀ d : Int, ∃ v, from_grpc_value_with_depth p.2 d = some v)
    (h : supportedWireEntries kws = true) :
    ∀ d : Int, ∃ vs, from_grpc_map_entries kws d = some vs := by
  induction kws with
  | nil => intro d; exact ⟨[], rfl⟩
  | cons q qs ih =>
    intro d
    obtain ⟨k, w⟩ := q
    simp only [supportedWireEntries, Bool.and_eq_true] at h
    obtain ⟨v, hv⟩ := ihm (k, w) (by simp) h.1 d
    obtain ⟨vs, hvs⟩ := ih (fun p hp => ihm p (by simp [hp])) h.2 d
    refine ⟨(k, v) :: vs, ?_⟩
    simp only [from_grpc_map_entries]
    rw [hv, hvs]

/-- Every wire value with supported leaves converts, at any depth
counter. -/
theorem from_grpc_some_of_supported (w : GValue) :
    supportedWire w = true → ∀ d : Int,
      ∃ v, from_grpc_value_with_depth w d = some v := by
  induction w using GValue.inductionDeep with
  | hnone => intro h; cases h
  | hnull n => intro _ d; exact ⟨.nullValue, rfl⟩
  | hbool b => intro _ d; exact ⟨.bool b, rfl⟩
  | hint i => intro _ d; exact ⟨.int i, rfl⟩
  | hdouble x => intro _ d; exact ⟨.double x, rfl⟩
  | hts t => intro _ d; exact ⟨.timestamp t, rfl⟩
  | hstr s => intro _ d; exact ⟨.str s, rfl⟩
  | hbytes bs => intro _ d; exact ⟨.bytes bs, rfl⟩
  | href r => intro h; cases h
  | hgeo lat lng => intro h; cases h
  | harr ws ihm =>
    intro h d
    simp only [supportedWire] at h
    obtain ⟨vs, hvs⟩ := from_grpc_values_some_of_supported ws ihm h (d + 1)
    refine ⟨.array vs, ?_⟩
    simp only [from_grpc_value_with_depth]
    rw [hvs]
    rfl
  | hmap kws ihm =>
    intro h d
    simp only [supportedWire] at h
    obtain ⟨vs, hvs⟩ := from_grpc_map_entries_some_of_supported kws ihm h (d + 1)
    refine ⟨.map vs, ?_⟩
    simp only [from_grpc_value_with_depth]
    rw [hvs]
    rfl

/-- C10: the wire-to-Field-Value conversion imposes no nesting-depth limit:
for every wire value whose leaves are of supported kinds — at any nesting
depth, including depth greater than 20 — `from_grpc_value_with_depth`
returns a Field Value without aborting, and the depth counter it threads
through the recursion never affects the outcome (it is compared against no
bound). -/
theorem from_grpc_value_no_depth_limit (w : GValue) (d e : Int) :
    from_grpc_value_with_depth w d = from_grpc_value_with_depth w e ∧
    (supportedWire w = true → ∃ v, from_grpc_value_with_depth w d = some v) :=
  ⟨from_grpc_value_depth_irrel w d e,
   fun h => from_grpc_some_of_supported w h d⟩

/-- Witness for C10: a wire value nested 25 container levels deep — beyond
the 20-level guard of the opposite direction — converts successfully. -/
theorem from_grpc_value_no_depth_limit_witness :
    supportedWire (nestedWire 25) = true ∧
    (∃ v, from_grpc_value_with_depth (nestedWire 25) 0 = some v) ∧
    from_grpc_value_with_depth (nestedWire 25) 0 =
      from_grpc_value_with_depth (nestedWire 25) 100 :=
  ⟨by decide,
   (from_grpc_value_no_depth_limit (nestedWire 25) 0 100).2 (by decide),
   (from_grpc_value_no_depth_limit (nestedWire 25) 0 100).1⟩

end FirestoreRs
